import Mathlib

/-!
Verification of the skill-extraction agent (`src/agent/`) of the
react-jobads-extractions repository.

The Python tools are embedded shallowly:

* `SkillTypes` mirrors the pydantic model in `state.py` (lists of strings).
* Python `set(...)` values are modelled by `List.dedup` / `List.filter`;
  Python's set enumeration order is unspecified, so all claims about set-valued
  data are stated up to membership / `toFinset` where the order could matter.
* The LLM collaborators (LangExtract, ChatOllama) are parameters: an extraction
  call is determined by the list of labels the collaborator returns per job ad,
  and the G-Eval judge is a function from (task, ad, outputs) to `EvalResults`.
* Fallible steps return `Except PyError CommandUpdate`; a `Command` update that
  does not mention a state key is modelled by `none` in `CommandUpdate`.
* Python floats are modelled by `ℚ` (exact arithmetic).
-/

/-- Python `str.split()` whitespace class (space, tab, newline, carriage
return, vertical tab, form feed), by code point. -/
def isPyWs (c : Char) : Bool :=
  c.toNat == 32 || c.toNat == 9 || c.toNat == 10 || c.toNat == 13 ||
    c.toNat == 11 || c.toNat == 12

/-- Helper for `pySplitChars`: `acc` holds the (reversed) current run of
non-whitespace characters. -/
def pySplitAux : List Char → List Char → List (List Char)
  | [], acc => if acc.isEmpty then [] else [acc.reverse]
  | c :: cs, acc =>
    if isPyWs c then
      if acc.isEmpty then pySplitAux cs [] else acc.reverse :: pySplitAux cs []
    else
      pySplitAux cs (c :: acc)

/-- Python `str.split()` with no separator: maximal runs of non-whitespace
characters, empty runs dropped. -/
def pySplitChars (l : List Char) : List (List Char) :=
  pySplitAux l []

/-- Python `" ".join(words)`: words separated by single spaces. -/
def joinWords : List (List Char) → List Char
  | [] => []
  | [w] => w
  | w :: ws => w ++ ' ' :: joinWords ws

/-- Python `str.lower()` on the character list (ASCII letters, which is what
`Char.toLower` implements and what the skill labels contain). -/
def pyLower (l : List Char) : List Char := l.map Char.toLower

/-- Embedding of the normalisation applied to every extracted label in
`skill_utils.py` (lines 98 and 208):
`" ".join(skill.split()).lower() if "_" in skill else skill.lower()`.
Whitespace is collapsed only when the label contains an underscore. -/
def pyNormalize (skill : String) : String :=
  if skill.data.contains '_' then ⟨pyLower (joinWords (pySplitChars skill.data))⟩
  else ⟨pyLower skill.data⟩

/-- Modelled from the spec words for comparison with `pyNormalize`: a label is
"whitespace-collapsed, lower-cased", i.e. collapsing is applied
unconditionally. -/
def specNormalize (skill : String) : String :=
  ⟨pyLower (joinWords (pySplitChars skill.data))⟩

/-- ASCII upper-case letter test, used to state that normalised labels are
lower-cased. -/
def isUpperAscii (c : Char) : Bool :=
  decide (65 ≤ c.toNat ∧ c.toNat ≤ 90)

/-- A character list has collapsed whitespace: no two adjacent whitespace
characters, and every whitespace character is a plain space. -/
def wsCollapsed (l : List Char) : Prop :=
  List.Chain' (fun a b => isPyWs a = false ∨ isPyWs b = false) l ∧
    ∀ c ∈ l, isPyWs c = false ∨ c = ' '

/-- The pydantic `SkillTypes` model from `state.py`: hard, soft and hybrid
skill lists. -/
structure SkillTypes where
  hard : List String
  soft : List String
  both : List String
deriving DecidableEq, Repr

/-- `hard_set.intersection(soft_set)` in `check_for_bothskills`
(`skill_utils.py` line 273): the elements common to `set(hard)` and
`set(soft)`, enumerated in (deduplicated) `hard` order. -/
def skillIntersection (s : SkillTypes) : List String :=
  s.hard.dedup.filter (fun x => decide (x ∈ s.soft.dedup))

/-- State transform induced by `check_for_bothskills` (`skill_utils.py`
lines 258-303) on the `skills` entry: if `set(hard)` and `set(soft)`
intersect, every common element is removed from both sets and the `both`
list is set to the intersection; otherwise the state is left unchanged
(the returned `Command` carries no `skills` update). -/
def check_for_bothskills (s : SkillTypes) : SkillTypes :=
  let hard_set := s.hard.dedup
  let soft_set := s.soft.dedup
  let intersection := skillIntersection s
  if 0 < intersection.length then
    { hard := hard_set.filter (fun x => decide (x ∉ intersection)),
      soft := soft_set.filter (fun x => decide (x ∉ intersection)),
      both := intersection }
  else s

/-- A Python runtime error raised by a tool; the guards in `skill_utils.py`
leave locals unassigned when the `skills` state is missing, and the code then
references them unconditionally. -/
inductive PyError where
  | unboundLocal (name : String)
deriving DecidableEq, Repr

/-- Structured judge output (`EvalResults` pydantic model in
`evaluation.py`): per-item reasoning and scores. Floats are modelled by `ℚ`. -/
structure EvalResults where
  reasoning : List String
  score : List ℚ
deriving DecidableEq, Repr

/-- The `result_evaluation` mapping built by `evaluate_correctness`: keys are
the three task categories; the `skills` value is a list of per-sub-type
singleton dicts in hard/soft/both order. `none` means the key is absent. -/
structure ResultEvaluation where
  skills : Option (List (String × EvalResults)) := none
  requirements : Option EvalResults := none
  responsibilities : Option EvalResults := none
deriving DecidableEq, Repr

/-- The `update` dictionary of a returned `Command`: a state key is modelled
by `none` when the update does not mention it (the LangGraph state then keeps
its previous value). -/
structure CommandUpdate where
  skills : Option SkillTypes := none
  requirements : Option (List String) := none
  responsibilities : Option (List String) := none
  evaluation : Option ResultEvaluation := none
  messages : List String := []
deriving DecidableEq, Repr

/-- The full `check_for_bothskills` tool (`skill_utils.py` lines 235-303).
When no `SkillTypes` exists in the state, `hard_skills`/`soft_skills` are only
assigned inside the `if skill_state:` guard, and `set(hard_skills)` on line
268 then raises `UnboundLocalError`. -/
def check_for_bothskills_tool (skills : Option SkillTypes) :
    Except PyError CommandUpdate :=
  match skills with
  | none => .error (.unboundLocal "hard_skills")
  | some existing_skill_state =>
    let both_skills := skillIntersection existing_skill_state
    if 0 < both_skills.length then
      let n := both_skills.length
      .ok { skills := some (check_for_bothskills existing_skill_state),
            messages :=
              [s!"Found {n} matching skills when validated HARD and SOFT skills. State updated under the skills key."] }
    else
      .ok { messages :=
              ["Hard & Soft skills were validated, all values are unique!"] }

/-- The `extract_soft_skills` tool (`skill_utils.py` lines 15-119).
`adsLabels` is the list of `extraction_class` labels the LangExtract
collaborator returns for each job ad, in ad order; `adsLabels = []` models
`job_ads = []`.  The per-ad loop re-reads `state.get("skills")` (the pre-call
state) on every iteration and overwrites `updated_dictionary`, so the final
update reflects only the LAST advertisement.  When `skills` is absent the
loop body never runs and the closing message references the unassigned local
`updated_softskills`, raising `UnboundLocalError`. -/
def extract_soft_skills (skills : Option SkillTypes)
    (adsLabels : List (List String)) : Except PyError CommandUpdate :=
  if h : adsLabels = [] then
    .ok { messages := ["No job_ads were found in the state!"] }
  else
    match skills with
    | none => .error (.unboundLocal "updated_softskills")
    | some current_skill_state =>
      let softskills_normalised := (adsLabels.getLast h).map pyNormalize
      let updated_softskills :=
        (current_skill_state.soft ++ softskills_normalised).dedup
      let n := updated_softskills.length
      .ok { skills := some { current_skill_state with soft := updated_softskills },
            messages :=
              [s!"Successfully extracted {n} new soft skills. State updated under the skills key."] }

/-- The `extract_hard_skills` tool (`skill_utils.py` lines 125-229); same
structure as `extract_soft_skills` with the `hard` list. -/
def extract_hard_skills (skills : Option SkillTypes)
    (adsLabels : List (List String)) : Except PyError CommandUpdate :=
  if h : adsLabels = [] then
    .ok { messages := ["No job_ads were found in the state!"] }
  else
    match skills with
    | none => .error (.unboundLocal "updated_hardskills")
    | some current_skill_state =>
      let hardskills_normalised := (adsLabels.getLast h).map pyNormalize
      let updated_hardskills :=
        (current_skill_state.hard ++ hardskills_normalised).dedup
      let n := updated_hardskills.length
      .ok { skills := some { current_skill_state with hard := updated_hardskills },
            messages :=
              [s!"Successfully extracted {n} new hard skills. State updated under the skills key."] }

/-- The `skills` entry of the `Command` update a tool returned, if any. -/
def resultSkills : Except PyError CommandUpdate → Option SkillTypes
  | .ok u => u.skills
  | .error _ => none

/-- Todo status literal from `state.py` (`Todo` TypedDict). -/
inductive TodoStatus where
  | pending
  | in_progress
  | completed
deriving DecidableEq, Repr

/-- The `status_emoji` dict in `read_todos` (`todo_utils.py` line 61); lookup
always succeeds because `status` is restricted to the three literals. -/
def statusEmoji : TodoStatus → String
  | .pending => "⏳"
  | .in_progress => "🔄"
  | .completed => "✅"

/-- String value of the status literal, as rendered by the f-string. -/
def statusText : TodoStatus → String
  | .pending => "pending"
  | .in_progress => "in_progress"
  | .completed => "completed"

/-- The `Todo` TypedDict from `state.py`. -/
structure Todo where
  content : String
  status : TodoStatus
deriving DecidableEq, Repr

/-- One rendered line of the todo list:
`f"{i}. {emoji} {todo['content']}: {todo['status']}\n"`. -/
def todoLine (i : Nat) (todo : Todo) : String :=
  let emoji := statusEmoji todo.status
  let content := todo.content
  let status := statusText todo.status
  s!"{i}. {emoji} {content}: {status}\n"

/-- Python `str.strip()`: leading and trailing whitespace removed. -/
def pyStrip (s : String) : String :=
  ⟨((s.data.dropWhile isPyWs).reverse.dropWhile isPyWs).reverse⟩

/-- The `read_todos` tool (`todo_utils.py` lines 38-65).  The loop body
REASSIGNS `result` (`result = f"..."`) instead of appending, so the initial
header and all lines but the last are discarded; `enumerate(todos, 1)` is
modelled by `List.enum` with the index shifted by one, and the final
`.strip()` by `pyStrip`. -/
def read_todos (todos : List Todo) : String :=
  if todos = [] then
    "Currently, there aren\x27t any todos in the list."
  else
    let result := "Current TODO list:\n"
    let result := todos.enum.foldl (fun _ p => todoLine (p.1 + 1) p.2) result
    pyStrip result

/-- `score_range = (0, 10)` in `evaluate_correctness` (`evaluation.py`
line 142). -/
def score_range : Nat × Nat := (0, 10)

/-- Score normalisation in `evaluate_correctness` (lines 209 and 244):
`scores = [score / score_range[1] for score in scores]`. -/
def normalizeScores (scores : List ℚ) : List ℚ :=
  scores.map (fun score => score / (score_range.2 : ℚ))

/-- One judge invocation followed by score normalisation: the
`{"reasoning": reasoning, "score": scores}` value stored per category.  The
judge parameter abstracts the structured-output LLM call on the formatted
G-Eval prompt, as a function of the task name, the ad text and the extracted
outputs. -/
def applyJudge (judge : String → String → List String → EvalResults)
    (task ad : String) (outputs : List String) : EvalResults :=
  let result := judge task ad outputs
  { reasoning := result.reasoning, score := normalizeScores result.score }

/-- The `skill_results` list built for the `skills` task (lines 187-210): one
singleton dict per sub-type in `["hard", "soft", "both"]` order, skipping
empty sub-lists. -/
def skillTaskResults (judge : String → String → List String → EvalResults)
    (ad : String) (sv : SkillTypes) : List (String × EvalResults) :=
  (([("hard", sv.hard), ("soft", sv.soft), ("both", sv.both)]).filter
      (fun p => !p.2.isEmpty)).map
    (fun p => (p.1, applyJudge judge "skills" ad p.2))

/-- The inner `for task in tasks:` loop body of `evaluate_correctness` for one
advertisement: each present category OVERWRITES its key in
`result_evaluation`; absent/empty categories leave the key untouched.  The
`if state_values:` test for `skills` is pydantic-model truthiness, i.e. it
only checks that the `skills` state exists. -/
def evalStep (skills : Option SkillTypes) (reqs resps : List String)
    (judge : String → String → List String → EvalResults)
    (acc : ResultEvaluation) (ad : String) : ResultEvaluation :=
  let acc1 := match skills with
    | some sv => { acc with skills := some (skillTaskResults judge ad sv) }
    | none => acc
  let acc2 := if reqs.isEmpty then acc1 else
    { acc1 with requirements := some (applyJudge judge "requirements" ad reqs) }
  if resps.isEmpty then acc2 else
    { acc2 with responsibilities := some (applyJudge judge "responsibilities" ad resps) }

/-- The `evaluate_correctness` tool (`evaluation.py` lines 95-255): with no
job ads it only logs a message; otherwise it folds the per-ad loop over
`result_evaluation = {}` and stores the mapping under the `evaluation` key. -/
def evaluate_correctness (skills : Option SkillTypes) (reqs resps : List String)
    (ads : List String) (judge : String → String → List String → EvalResults) :
    CommandUpdate :=
  if ads = [] then
    { messages := ["No job_ads were found in the state!"] }
  else
    { evaluation := some (ads.foldl (evalStep skills reqs resps judge) {}),
      messages := ["G-Eval for creterion: Correctness was conducted successfuly!"] }

/-- The `extract_responsibilities` tool (`req_and_res.py` lines 15-87).
`collab` abstracts the LLM chain output per ad; the per-ad loop overwrites
`responsiblity_dict["responsibilities"]`, so the final value comes from the
last advertisement. -/
def extract_responsibilities (collab : String → List String)
    (ads : List String) : CommandUpdate :=
  if h : ads = [] then
    { messages := ["No job_ads were found in the state!"] }
  else
    let responsibilities := collab (ads.getLast h)
    let n := responsibilities.length
    { responsibilities := some responsibilities,
      messages := [s!"{n} were extracted from the job advertisment!"] }

/-- The `extract_requirements` tool (`req_and_res.py` lines 91-169); same
structure as `extract_responsibilities` with the `requirements` key. -/
def extract_requirements (collab : String → List String)
    (ads : List String) : CommandUpdate :=
  if h : ads = [] then
    { messages := ["No job_ads were found in the state!"] }
  else
    let requirements := collab (ads.getLast h)
    let n := requirements.length
    { requirements := some requirements,
      messages := [s!"{n} were extracted from the job advertisment!"] }

/-- The `Command` update every step returns on the `job_ads = []` guard: no
state key besides `messages` is touched, and exactly one message is logged. -/
def noJobAdsUpdate : CommandUpdate :=
  { skills := none, requirements := none, responsibilities := none,
    evaluation := none, messages := ["No job_ads were found in the state!"] }

/-- Judge used for the C7 instances: reasoning records which ad was judged,
score is the maximal raw score 10 (normalised to 1). -/
def judgeCE : String → String → List String → EvalResults :=
  fun _ ad _ => ⟨[ad], [10]⟩

example : skillIntersection ⟨["a", "b"], ["b", "c"], []⟩ = ["b"] := by decide

example : check_for_bothskills ⟨["a", "b"], ["b", "c"], []⟩ =
    ⟨["a"], ["c"], ["b"]⟩ := by decide

example : pyNormalize "A  B" = "a  b" := by decide

example : pyNormalize "A_b  C" = "a_b c" := by decide

theorem toNat_ofNat_of_lt {n : Nat} (h : n < 55296) : (Char.ofNat n).toNat = n := by
  have hv : n.isValidChar := Or.inl h
  unfold Char.ofNat
  rw [dif_pos hv]
  rfl

theorem toLower_toNat_of_upper {c : Char} (h : 65 ≤ c.toNat ∧ c.toNat ≤ 90) :
    (Char.toLower c).toNat = c.toNat + 32 := by
  unfold Char.toLower
  rw [if_pos ⟨h.1, h.2⟩]
  exact toNat_ofNat_of_lt (by omega)

theorem toLower_eq_self_of_not_upper {c : Char}
    (h : ¬(65 ≤ c.toNat ∧ c.toNat ≤ 90)) : Char.toLower c = c := by
  unfold Char.toLower
  rw [if_neg (fun hc => h ⟨hc.1, hc.2⟩)]

theorem isUpperAscii_toLower (c : Char) : isUpperAscii (Char.toLower c) = false := by
  by_cases h : 65 ≤ c.toNat ∧ c.toNat ≤ 90
  · have ht := toLower_toNat_of_upper h
    simp only [isUpperAscii, ht, decide_eq_false_iff_not]
    omega
  · rw [toLower_eq_self_of_not_upper h]
    simp only [isUpperAscii, decide_eq_false_iff_not]
    exact h

theorem isPyWs_iff {c : Char} : isPyWs c = true ↔
    (c.toNat = 32 ∨ c.toNat = 9 ∨ c.toNat = 10 ∨ c.toNat = 13 ∨
      c.toNat = 11 ∨ c.toNat = 12) := by
  simp [isPyWs]
  tauto

theorem isPyWs_toLower (c : Char) : isPyWs (Char.toLower c) = isPyWs c := by
  by_cases h : 65 ≤ c.toNat ∧ c.toNat ≤ 90
  · have ht := toLower_toNat_of_upper h
    have h1 : isPyWs (Char.toLower c) = false := by
      rw [← Bool.not_eq_true, isPyWs_iff, ht]
      omega
    have h2 : isPyWs c = false := by
      rw [← Bool.not_eq_true, isPyWs_iff]
      omega
    rw [h1, h2]
  · rw [toLower_eq_self_of_not_upper h]

theorem pySplitAux_words : ∀ (l acc : List Char),
    (∀ c ∈ acc, isPyWs c = false) →
    ∀ w ∈ pySplitAux l acc, w ≠ [] ∧ ∀ c ∈ w, isPyWs c = false := by
  intro l
  induction l with
  | nil =>
    intro acc hacc w hw
    unfold pySplitAux at hw
    by_cases he : acc.isEmpty
    · rw [if_pos he] at hw
      simp at hw
    · rw [if_neg he] at hw
      simp only [List.mem_singleton] at hw
      subst hw
      rw [List.isEmpty_iff] at he
      refine ⟨by simp [he], ?_⟩
      intro c hc
      exact hacc c (List.mem_reverse.1 hc)
  | cons a t ih =>
    intro acc hacc w hw
    unfold pySplitAux at hw
    by_cases ha : isPyWs a
    · rw [if_pos ha] at hw
      by_cases he : acc.isEmpty
      · rw [if_pos he] at hw
        exact ih [] (by simp) w hw
      · rw [if_neg he] at hw
        rcases List.mem_cons.1 hw with hw | hw
        · subst hw
          rw [List.isEmpty_iff] at he
          refine ⟨by simp [he], ?_⟩
          intro c hc
          exact hacc c (List.mem_reverse.1 hc)
        · exact ih [] (by simp) w hw
    · rw [if_neg ha] at hw
      refine ih (a :: acc) ?_ w hw
      intro c hc
      rcases List.mem_cons.1 hc with rfl | hc
      · simpa using ha
      · exact hacc c hc

theorem chain'_of_forall_not_ws : ∀ (w : List Char),
    (∀ c ∈ w, isPyWs c = false) →
    List.Chain' (fun a b => isPyWs a = false ∨ isPyWs b = false) w := by
  intro w
  induction w with
  | nil => intro _; simp
  | cons a t ih =>
    intro hw
    rw [List.chain'_cons']
    constructor
    · intro y _
      exact Or.inl (hw a (by simp))
    · exact ih (fun c hc => hw c (by simp [hc]))

theorem head?_joinWords {w : List Char} {ws : List (List Char)} (hw : w ≠ []) :
    (joinWords (w :: ws)).head? = w.head? := by
  cases ws with
  | nil => rfl
  | cons w2 ws' =>
    cases w with
    | nil => exact absurd rfl hw
    | cons c cs => rfl

theorem mem_joinWords {c : Char} : ∀ {ws : List (List Char)},
    c ∈ joinWords ws → (∃ w ∈ ws, c ∈ w) ∨ c = ' ' := by
  intro ws
  induction ws with
  | nil => intro h; simp [joinWords] at h
  | cons w ws' ih =>
    intro h
    cases ws' with
    | nil =>
      exact Or.inl ⟨w, by simp, h⟩
    | cons w2 ws'' =>
      rcases List.mem_append.1 h with h | h
      · exact Or.inl ⟨w, by simp, h⟩
      · rcases List.mem_cons.1 h with rfl | h
        · exact Or.inr rfl
        · rcases ih h with ⟨w', hw', hc⟩ | h
          · exact Or.inl ⟨w', by simp [hw'], hc⟩
          · exact Or.inr h

theorem wsCollapsed_joinWords : ∀ {ws : List (List Char)},
    (∀ w ∈ ws, w ≠ [] ∧ ∀ c ∈ w, isPyWs c = false) →
    wsCollapsed (joinWords ws) := by
  intro ws
  induction ws with
  | nil => intro _; exact ⟨by simp [joinWords], by simp [joinWords]⟩
  | cons w ws' ih =>
    intro h
    obtain ⟨hw_ne, hw_ws⟩ := h w (by simp)
    cases ws' with
    | nil =>
      exact ⟨chain'_of_forall_not_ws w hw_ws, fun c hc => Or.inl (hw_ws c hc)⟩
    | cons w2 ws'' =>
      have hrest := ih (fun w' hw' => h w' (by simp [hw']))
      obtain ⟨hw2_ne, hw2_ws⟩ := h w2 (by simp)
      constructor
      · show List.Chain' _ (w ++ ' ' :: joinWords (w2 :: ws''))
        rw [List.chain'_append]
        refine ⟨chain'_of_forall_not_ws w hw_ws, ?_, ?_⟩
        · rw [List.chain'_cons']
          constructor
          · intro y hy
            rw [head?_joinWords hw2_ne] at hy
            exact Or.inr (hw2_ws y (List.mem_of_mem_head? hy))
          · exact hrest.1
        · intro x hx y _
          exact Or.inl (hw_ws x (List.mem_of_getLast?_eq_some hx))
      · intro c hc
        rcases List.mem_append.1 hc with hc | hc
        · exact Or.inl (hw_ws c hc)
        · rcases List.mem_cons.1 hc with rfl | hc
          · exact Or.inr rfl
          · exact hrest.2 c hc

theorem wsCollapsed_pyLower {l : List Char} (h : wsCollapsed l) :
    wsCollapsed (pyLower l) := by
  obtain ⟨hch, hmem⟩ := h
  constructor
  · rw [pyLower, List.chain'_map]
    refine hch.imp ?_
    intro a b hab
    rcases hab with hab | hab
    · exact Or.inl (by rw [isPyWs_toLower]; exact hab)
    · exact Or.inr (by rw [isPyWs_toLower]; exact hab)
  · intro c hc
    obtain ⟨d, hd, rfl⟩ := List.mem_map.1 hc
    rcases hmem d hd with hws | rfl
    · exact Or.inl (by rw [isPyWs_toLower]; exact hws)
    · exact Or.inr (by decide)

theorem mem_skillIntersection {s : SkillTypes} {x : String} :
    x ∈ skillIntersection s ↔ x ∈ s.hard ∧ x ∈ s.soft := by
  simp [skillIntersection, List.mem_filter, List.mem_dedup]

theorem skillIntersection_toFinset (s : SkillTypes) :
    (skillIntersection s).toFinset = s.hard.toFinset ∩ s.soft.toFinset := by
  ext x
  simp [mem_skillIntersection]

theorem skillIntersection_eq_nil_iff {s : SkillTypes} :
    skillIntersection s = [] ↔ s.hard.toFinset ∩ s.soft.toFinset = ∅ := by
  rw [← skillIntersection_toFinset]
  constructor
  · intro h
    simp [h]
  · intro h
    rw [List.eq_nil_iff_forall_not_mem]
    intro x hx
    have : x ∈ (skillIntersection s).toFinset := List.mem_toFinset.2 hx
    simp [h] at this

theorem check_eq_self_of_inter_nil {s : SkillTypes}
    (h : skillIntersection s = []) : check_for_bothskills s = s := by
  simp [check_for_bothskills, h]

theorem check_inter_toFinset_empty (s : SkillTypes) :
    (check_for_bothskills s).hard.toFinset ∩
      (check_for_bothskills s).soft.toFinset = ∅ := by
  by_cases hpos : 0 < (skillIntersection s).length
  · rw [Finset.eq_empty_iff_forall_not_mem]
    intro x hx
    rw [Finset.mem_inter, List.mem_toFinset, List.mem_toFinset] at hx
    obtain ⟨hxh, hxs⟩ := hx
    simp only [check_for_bothskills, if_pos hpos, List.mem_filter,
      List.mem_dedup, decide_eq_true_eq] at hxh hxs
    exact hxh.2 (mem_skillIntersection.2 ⟨hxh.1, hxs.1⟩)
  · have hnil : skillIntersection s = [] := by
      cases h : skillIntersection s with
      | nil => rfl
      | cons a t => rw [h] at hpos; simp at hpos
    rw [check_eq_self_of_inter_nil hnil]
    exact skillIntersection_eq_nil_iff.1 hnil

theorem skillIntersection_check_nil (s : SkillTypes) :
    skillIntersection (check_for_bothskills s) = [] :=
  skillIntersection_eq_nil_iff.2 (check_inter_toFinset_empty s)

/-- C1: for every `SkillSet` and every string in `hard ∩ soft` before
reconciliation, after `check_for_bothskills` the string is in `both` and in
neither `hard` nor `soft`; consequently `hard ∩ soft = ∅` afterwards. -/
theorem check_for_bothskills_dedup_correct (s : SkillTypes) :
    (∀ x, x ∈ s.hard → x ∈ s.soft →
      x ∈ (check_for_bothskills s).both ∧ x ∉ (check_for_bothskills s).hard ∧
        x ∉ (check_for_bothskills s).soft) ∧
    (check_for_bothskills s).hard.toFinset ∩
      (check_for_bothskills s).soft.toFinset = ∅ := by
  refine ⟨?_, check_inter_toFinset_empty s⟩
  intro x hh hs
  have hx : x ∈ skillIntersection s := mem_skillIntersection.2 ⟨hh, hs⟩
  have hpos : 0 < (skillIntersection s).length := by
    cases h : skillIntersection s with
    | nil => rw [h] at hx; simp at hx
    | cons a t => simp
  simp only [check_for_bothskills, if_pos hpos, List.mem_filter,
    List.mem_dedup, decide_eq_true_eq]
  exact ⟨hx, fun h => h.2 hx, fun h => h.2 hx⟩

theorem check_for_bothskills_dedup_correct_witness :
    ("b" : String) ∈ (check_for_bothskills ⟨["a", "b"], ["b", "c"], []⟩).both ∧
    ("b" : String) ∉ (check_for_bothskills ⟨["a", "b"], ["b", "c"], []⟩).hard ∧
    ("b" : String) ∉ (check_for_bothskills ⟨["a", "b"], ["b", "c"], []⟩).soft :=
  (check_for_bothskills_dedup_correct ⟨["a", "b"], ["b", "c"], []⟩).1 "b"
    (by decide) (by decide)

/-- C2 counterexample: `both` does NOT accumulate.  On the state
`hard = ["b"], soft = ["b"], both = ["x"]` the intersection is non-empty, so
the step replaces `both` with the intersection and the prior element `"x"` is
removed from `both`, contradicting the claim. -/
theorem check_for_bothskills_drops_prior_both :
    ("x" : String) ∈ (SkillTypes.mk ["b"] ["b"] ["x"]).both ∧
    (SkillTypes.mk ["b"] ["b"] ["x"]).both ≠ [] ∧
    ("x" : String) ∉ (check_for_bothskills ⟨["b"], ["b"], ["x"]⟩).both := by
  decide

/-- C2 amended: the step never extends `both` across calls; instead, when
`hard ∩ soft` is empty it leaves the whole state (hence `both`) unchanged,
and when the intersection is non-empty it REPLACES `both` by exactly the
elements of the current intersection, discarding prior contents of `both`. -/
theorem check_for_bothskills_both_replaced (s : SkillTypes) :
    (s.hard.toFinset ∩ s.soft.toFinset = ∅ → check_for_bothskills s = s) ∧
    (s.hard.toFinset ∩ s.soft.toFinset ≠ ∅ →
      (check_for_bothskills s).both.toFinset =
        s.hard.toFinset ∩ s.soft.toFinset) := by
  constructor
  · intro h
    exact check_eq_self_of_inter_nil (skillIntersection_eq_nil_iff.2 h)
  · intro h
    have hpos : 0 < (skillIntersection s).length := by
      cases hn : skillIntersection s with
      | nil => exact absurd (skillIntersection_eq_nil_iff.1 hn) h
      | cons a t => simp
    simp only [check_for_bothskills, if_pos hpos]
    exact skillIntersection_toFinset s

theorem check_for_bothskills_both_replaced_witness :
    (check_for_bothskills ⟨["a"], ["b"], ["z"]⟩ = ⟨["a"], ["b"], ["z"]⟩) ∧
    (check_for_bothskills ⟨["b"], ["b"], ["x"]⟩).both.toFinset =
      (SkillTypes.mk ["b"] ["b"] ["x"]).hard.toFinset ∩
        (SkillTypes.mk ["b"] ["b"] ["x"]).soft.toFinset :=
  ⟨(check_for_bothskills_both_replaced ⟨["a"], ["b"], ["z"]⟩).1 (by decide),
   (check_for_bothskills_both_replaced ⟨["b"], ["b"], ["x"]⟩).2 (by decide)⟩

/-- C3: reconciliation is idempotent: the intersection of `hard` and `soft`
is empty after one application, so the second application is a no-op. -/
theorem check_for_bothskills_idempotent (s : SkillTypes) :
    check_for_bothskills (check_for_bothskills s) = check_for_bothskills s :=
  check_eq_self_of_inter_nil (skillIntersection_check_nil s)

theorem list_dedup_toFinset (l : List String) : l.dedup.toFinset = l.toFinset := by
  ext x
  simp [List.mem_dedup]

/-- C4 counterexample: with two job ads, the labels of the first ad are NOT
unioned into the skill set.  The per-ad loop rebuilds the update from the
pre-call state, so only the last ad survives: extracting `"x"` from ad 1 and
`"y"` from ad 2 into an empty `SkillSet` records only `"y"`. -/
theorem extract_soft_skills_first_ad_dropped :
    resultSkills (extract_soft_skills (some ⟨[], [], []⟩) [["x"], ["y"]]) =
      some ⟨[], ["y"], []⟩ ∧
    ("x" : String) ∉ (SkillTypes.mk [] ["y"] []).soft := by
  decide

/-- C4 amended: per call, only the LAST supplied job ad's normalized labels
are unioned (not replaced) into the existing category's set (labels of
earlier ads are dropped); repeating the extraction with identical source
text leaves the set of skills, and hence its cardinality, unchanged. -/
theorem extract_skills_union_last_ad (s0 : SkillTypes) (L : List (List String))
    (labels : List String) (h : L.getLast? = some labels) :
    (∀ s1, resultSkills (extract_soft_skills (some s0) L) = some s1 →
      s1.soft.toFinset = s0.soft.toFinset ∪ (labels.map pyNormalize).toFinset ∧
      s1.hard = s0.hard ∧ s1.both = s0.both ∧
      ∀ s2, resultSkills (extract_soft_skills (some s1) L) = some s2 →
        s2.soft.toFinset = s1.soft.toFinset ∧ s2.soft.length = s1.soft.length) ∧
    (∀ s1, resultSkills (extract_hard_skills (some s0) L) = some s1 →
      s1.hard.toFinset = s0.hard.toFinset ∪ (labels.map pyNormalize).toFinset ∧
      s1.soft = s0.soft ∧ s1.both = s0.both ∧
      ∀ s2, resultSkills (extract_hard_skills (some s1) L) = some s2 →
        s2.hard.toFinset = s1.hard.toFinset ∧ s2.hard.length = s1.hard.length) := by
  have hne : L ≠ [] := by
    intro hL
    rw [hL] at h
    simp at h
  have hlast : L.getLast hne = labels := by
    rw [List.getLast?_eq_getLast L hne] at h
    exact Option.some.inj h
  constructor
  · intro s1 hs1
    simp only [extract_soft_skills, dif_neg hne, resultSkills, hlast,
      Option.some.injEq] at hs1
    subst hs1
    refine ⟨by rw [list_dedup_toFinset, List.toFinset_append], rfl, rfl, ?_⟩
    intro s2 hs2
    simp only [extract_soft_skills, dif_neg hne, resultSkills, hlast,
      Option.some.injEq] at hs2
    subst hs2
    have hts : ((s0.soft ++ labels.map pyNormalize).dedup ++
        labels.map pyNormalize).dedup.toFinset =
        (s0.soft ++ labels.map pyNormalize).dedup.toFinset := by
      rw [list_dedup_toFinset, List.toFinset_append, list_dedup_toFinset,
        List.toFinset_append, Finset.union_assoc, Finset.union_self]
    refine ⟨hts, ?_⟩
    rw [← List.toFinset_card_of_nodup (List.nodup_dedup _),
      ← List.toFinset_card_of_nodup (List.nodup_dedup _), hts]
  · intro s1 hs1
    simp only [extract_hard_skills, dif_neg hne, resultSkills, hlast,
      Option.some.injEq] at hs1
    subst hs1
    refine ⟨by rw [list_dedup_toFinset, List.toFinset_append], rfl, rfl, ?_⟩
    intro s2 hs2
    simp only [extract_hard_skills, dif_neg hne, resultSkills, hlast,
      Option.some.injEq] at hs2
    subst hs2
    have hts : ((s0.hard ++ labels.map pyNormalize).dedup ++
        labels.map pyNormalize).dedup.toFinset =
        (s0.hard ++ labels.map pyNormalize).dedup.toFinset := by
      rw [list_dedup_toFinset, List.toFinset_append, list_dedup_toFinset,
        List.toFinset_append, Finset.union_assoc, Finset.union_self]
    refine ⟨hts, ?_⟩
    rw [← List.toFinset_card_of_nodup (List.nodup_dedup _),
      ← List.toFinset_card_of_nodup (List.nodup_dedup _), hts]

/-- C5 evidence: the loop in `read_todos` reassigns `result` instead of
appending, so with two todos the rendering is only the last line — the first
item (content `"xx"`) appears nowhere in the output, and the header is lost
too.  The empty-list branch does return the documented message. -/
theorem read_todos_renders_only_last_item :
    read_todos [] = "Currently, there aren\x27t any todos in the list." ∧
    read_todos [⟨"xx", .pending⟩, ⟨"yy", .completed⟩] = "2. ✅ yy: completed" ∧
    'x' ∉ (read_todos [⟨"xx", .pending⟩, ⟨"yy", .completed⟩]).data := by
  decide

/-- C8 evidence: invoked with job ads present but no `SkillTypes` in the
state, the skill tools do not skip silently: the extraction tools reference
the unassigned local `updated_softskills`/`updated_hardskills` in their
closing message and the reconciliation tool calls `set(hard_skills)` on an
unassigned local, so all three raise `UnboundLocalError`. -/
theorem missing_skillset_raises_unbound_local :
    extract_soft_skills none [["x"]] =
      .error (.unboundLocal "updated_softskills") ∧
    extract_hard_skills none [["x"]] =
      .error (.unboundLocal "updated_hardskills") ∧
    check_for_bothskills_tool none = .error (.unboundLocal "hard_skills") :=
  ⟨rfl, rfl, rfl⟩

/-- C9: with `job_ads = []`, each extraction step and the evaluation step
short-circuits on the guard: the returned update carries no `skills`,
`requirements`, `responsibilities` or `evaluation` entry (so those state
fields are unchanged) and exactly one log message. -/
theorem empty_job_ads_short_circuit (skills : Option SkillTypes)
    (reqs resps : List String)
    (judge : String → String → List String → EvalResults)
    (respCollab reqCollab : String → List String) :
    extract_soft_skills skills [] = .ok noJobAdsUpdate ∧
    extract_hard_skills skills [] = .ok noJobAdsUpdate ∧
    extract_responsibilities respCollab [] = noJobAdsUpdate ∧
    extract_requirements reqCollab [] = noJobAdsUpdate ∧
    evaluate_correctness skills reqs resps [] judge = noJobAdsUpdate ∧
    noJobAdsUpdate.skills = none ∧ noJobAdsUpdate.requirements = none ∧
    noJobAdsUpdate.responsibilities = none ∧ noJobAdsUpdate.evaluation = none ∧
    noJobAdsUpdate.messages.length = 1 :=
  ⟨rfl, rfl, rfl, rfl, rfl, rfl, rfl, rfl, rfl, rfl⟩

/-- C10: every score the evaluation step produces from a judge reply is the
raw score divided by the upper bound of `score_range` (the lower bound is
never subtracted), and lies in `[0, 1]` whenever the raw scores lie in
`[score_range.1, score_range.2] = [0, 10]`. -/
theorem normalized_scores_unit_interval
    (judge : String → String → List String → EvalResults)
    (task ad : String) (outputs : List String)
    (hraw : ∀ r ∈ (judge task ad outputs).score,
      (score_range.1 : ℚ) ≤ r ∧ r ≤ (score_range.2 : ℚ)) :
    ∀ v ∈ (applyJudge judge task ad outputs).score,
      (∃ r ∈ (judge task ad outputs).score, v = r / (score_range.2 : ℚ)) ∧
        0 ≤ v ∧ v ≤ 1 := by
  intro v hv
  simp only [applyJudge, normalizeScores, List.mem_map] at hv
  obtain ⟨r, hr, rfl⟩ := hv
  obtain ⟨h0, h10⟩ := hraw r hr
  norm_num [score_range] at h0 h10
  refine ⟨⟨r, hr, rfl⟩, ?_, ?_⟩
  · apply div_nonneg h0
    norm_num [score_range]
  · rw [div_le_one (by norm_num [score_range] : (0 : ℚ) < (score_range.2 : ℚ))]
    norm_num [score_range]
    exact h10

theorem normalized_scores_unit_interval_witness :
    (∃ r ∈ [(0 : ℚ), 7, 10], (7 : ℚ) / 10 = r / ((score_range.2 : ℚ))) ∧
      0 ≤ (7 : ℚ) / 10 ∧ (7 : ℚ) / 10 ≤ 1 :=
  normalized_scores_unit_interval (fun _ _ _ => ⟨[], [0, 7, 10]⟩) "skills" "ad"
    [] (by norm_num [score_range]) ((7 : ℚ) / 10)
    (by norm_num [applyJudge, normalizeScores, score_range])

/-- C7 counterexample: the evaluation mapping is NOT keyed per (job ad, task
category) pair.  With two job ads and a non-empty requirement list, the two
ads produce different judge results, yet the final mapping holds exactly one
`requirements` entry — the last ad's — and no entry for the first ad. -/
theorem evaluate_correctness_overwrites_per_ad :
    evaluate_correctness none ["r"] [] ["a1", "a2"] judgeCE =
      { evaluation := some { requirements := some ⟨["a2"], [1]⟩ },
        messages :=
          ["G-Eval for creterion: Correctness was conducted successfuly!"] } ∧
    judgeCE "requirements" "a1" ["r"] ≠ judgeCE "requirements" "a2" ["r"] := by
  constructor
  · have hne : (["a1", "a2"] : List String) ≠ [] := by decide
    simp only [evaluate_correctness, if_neg hne, List.foldl, evalStep,
      skillTaskResults, applyJudge, normalizeScores, judgeCE, score_range,
      List.map, List.isEmpty, reduceIte]
    norm_num
  · decide

theorem evalStep_absorb (skills : Option SkillTypes) (reqs resps : List String)
    (judge : String → String → List String → EvalResults)
    (acc : ResultEvaluation) (a b : String) :
    evalStep skills reqs resps judge (evalStep skills reqs resps judge acc a) b =
      evalStep skills reqs resps judge acc b := by
  unfold evalStep
  cases skills <;> by_cases hr : reqs.isEmpty <;> by_cases hs : resps.isEmpty <;>
    simp [hr, hs]

theorem foldl_evalStep_last (skills : Option SkillTypes) (reqs resps : List String)
    (judge : String → String → List String → EvalResults) :
    ∀ (l : List String) (acc : ResultEvaluation) (h : l ≠ []),
      l.foldl (evalStep skills reqs resps judge) acc =
        evalStep skills reqs resps judge acc (l.getLast h) := by
  intro l
  induction l with
  | nil => intro acc h; exact absurd rfl h
  | cons a t ih =>
    intro acc h
    cases t with
    | nil => simp [List.foldl]
    | cons b t' =>
      rw [List.foldl_cons, ih (evalStep skills reqs resps judge acc a)
        (List.cons_ne_nil b t'), evalStep_absorb,
        List.getLast_cons (List.cons_ne_nil b t')]

/-- C7 amended: the evaluation mapping is keyed by task category only; each
category with a non-empty backing list gets exactly one `{reasoning, score}`
entry, computed from the LAST job ad (each ad's results overwrite the
previous ad's), with `skills` sub-keyed by hard/soft/both for each non-empty
sub-list; empty categories produce no entry. -/
theorem evaluate_correctness_keyed_by_task_last_ad
    (skills : Option SkillTypes) (reqs resps : List String) (ads : List String)
    (judge : String → String → List String → EvalResults) (last : String)
    (h : ads.getLast? = some last) :
    (evaluate_correctness skills reqs resps ads judge).evaluation =
      some { skills := skills.map (fun sv => skillTaskResults judge last sv),
             requirements := if reqs.isEmpty then none
               else some (applyJudge judge "requirements" last reqs),
             responsibilities := if resps.isEmpty then none
               else some (applyJudge judge "responsibilities" last resps) } ∧
    (evaluate_correctness skills reqs resps ads judge).messages.length = 1 := by
  have hne : ads ≠ [] := by
    intro hl
    rw [hl] at h
    simp at h
  have hlast : ads.getLast hne = last := by
    rw [List.getLast?_eq_getLast ads hne] at h
    exact Option.some.inj h
  constructor
  · simp only [evaluate_correctness, if_neg hne,
      foldl_evalStep_last skills reqs resps judge ads {} hne, hlast]
    unfold evalStep
    cases skills <;> by_cases hr : reqs.isEmpty <;> by_cases hs : resps.isEmpty <;>
      simp [hr, hs, Option.map]
  · simp [evaluate_correctness, if_neg hne]

theorem evaluate_correctness_keyed_by_task_last_ad_witness :
    (evaluate_correctness (some ⟨["h"], [], []⟩) ["r"] [] ["a1", "a2"]
        judgeCE).evaluation =
      some { skills := some [("hard", ⟨["a2"], [1]⟩)],
             requirements := some ⟨["a2"], [1]⟩, responsibilities := none } ∧
    (evaluate_correctness (some ⟨["h"], [], []⟩) ["r"] [] ["a1", "a2"]
        judgeCE).messages.length = 1 := by
  have h := evaluate_correctness_keyed_by_task_last_ad (some ⟨["h"], [], []⟩)
    ["r"] [] ["a1", "a2"] judgeCE "a2" (by decide)
  refine ⟨?_, h.2⟩
  rw [h.1]
  simp only [Option.map, skillTaskResults, applyJudge, normalizeScores,
    judgeCE, score_range, List.map, List.filter, List.isEmpty, reduceIte]
  norm_num

theorem extract_skills_union_last_ad_witness :
    (SkillTypes.mk [] ["a", "b"] []).soft.toFinset =
      (SkillTypes.mk [] ["a"] []).soft.toFinset ∪
        ((["b"] : List String).map pyNormalize).toFinset ∧
    (SkillTypes.mk [] ["a", "b"] []).hard = (SkillTypes.mk [] ["a"] []).hard ∧
    (SkillTypes.mk [] ["a", "b"] []).both = (SkillTypes.mk [] ["a"] []).both ∧
    ∀ s2, resultSkills (extract_soft_skills (some ⟨[], ["a", "b"], []⟩) [["b"]]) =
        some s2 →
      s2.soft.toFinset = (SkillTypes.mk [] ["a", "b"] []).soft.toFinset ∧
        s2.soft.length = (SkillTypes.mk [] ["a", "b"] []).soft.length :=
  (extract_skills_union_last_ad ⟨[], ["a"], []⟩ [["b"]] ["b"] (by decide)).1
    ⟨[], ["a", "b"], []⟩ (by decide)

/-- C6 counterexample: normalisation does NOT collapse internal whitespace
for every label.  The label `"A  B"` contains no underscore, so only
`.lower()` is applied and the double space survives, while the spec-described
normalisation (collapse, then lower-case) would produce `"a b"`. -/
theorem pyNormalize_no_collapse_without_underscore :
    pyNormalize "A  B" = "a  b" ∧ specNormalize "A  B" = "a b" ∧
      pyNormalize "A  B" ≠ specNormalize "A  B" := by
  decide

/-- C6 amended: every stored label is lower-cased (no ASCII upper-case letter
survives), but internal whitespace is collapsed ONLY when the label contains
an underscore; labels without an underscore are lower-cased with their
whitespace untouched. -/
theorem pyNormalize_lowercases_collapses_only_underscore (skill : String) :
    (∀ c ∈ (pyNormalize skill).data, isUpperAscii c = false) ∧
    (skill.data.contains '_' = true → wsCollapsed (pyNormalize skill).data) ∧
    (skill.data.contains '_' = false → pyNormalize skill = ⟨pyLower skill.data⟩) := by
  refine ⟨?_, ?_, ?_⟩
  · intro c hc
    by_cases h : skill.data.contains '_'
    · simp only [pyNormalize, if_pos h, pyLower] at hc
      obtain ⟨d, _, rfl⟩ := List.mem_map.1 hc
      exact isUpperAscii_toLower d
    · simp only [pyNormalize, if_neg h, pyLower] at hc
      obtain ⟨d, _, rfl⟩ := List.mem_map.1 hc
      exact isUpperAscii_toLower d
  · intro h
    simp only [pyNormalize, if_pos h]
    exact wsCollapsed_pyLower
      (wsCollapsed_joinWords
        (fun w hw => pySplitAux_words skill.data [] (by simp) w hw))
  · intro h
    have h' : ¬(skill.data.contains '_' = true) := by rw [h]; simp
    simp only [pyNormalize, if_neg h']

theorem pyNormalize_lowercases_collapses_only_underscore_witness :
    wsCollapsed (pyNormalize "A_b  C").data ∧
      pyNormalize "Ab" = ⟨pyLower "Ab".data⟩ :=
  ⟨(pyNormalize_lowercases_collapses_only_underscore "A_b  C").2.1 (by decide),
   (pyNormalize_lowercases_collapses_only_underscore "Ab").2.2 (by decide)⟩
